import Mathlib

/-!
Shallow embedding of `youtube_playlist_downloader_new.py`
(class `YouTubePlaylistDownloader`), covering the filename sanitizer,
the existence resolver (`check_file_exists`), the format-fallback
downloader (`download_with_format_fallback`), the playlist orchestrator
(`download_playlist`) and the summary arithmetic
(`show_download_summary`).

Modelling conventions:
 - Python strings are Lean `String`s; character-level operations
   (`re.sub`, `.lower()`, `.split()`) are modelled on `List Char`.
   `\s` and `str.lower` are modelled at ASCII level (the titles used in
   the concrete claims are ASCII).
 - The playlist directory is a `List String` of the file names it
   contains; `Path.exists` is list membership, `Path.glob(p ++ "*")`
   is a prefix filter, `Path.stem`/`Path.suffix` follow pathlib's
   "last dot strictly inside the name" rule.
 - The yt-dlp collaborator is a deterministic oracle
   `Dl : String → Fmt → Option String` (`none` = the download/transcode
   succeeded, `some e` = it raised an exception with message `e`).
   A successful invocation materializes the file named by the output
   template `"{i:02d} - %(title)s.%(ext)s"`.
 - Machine floats (`len * 0.7`, `(s / t) * 100`) are modelled as exact
   rational arithmetic.
-/

namespace YtDl

/-- The characters replaced by `_` in `sanitize_filename`
(Python regex `[<>:"/\\|?*]`). -/
def isIll (c : Char) : Bool :=
  c == '<' || c == '>' || c == ':' || c == '\"' || c == '/' ||
  c == '\\' || c == '|' || c == '?' || c == '*'

/-- ASCII model of Python's regex `\s` / `str.strip` whitespace. -/
def isWs (c : Char) : Bool :=
  c == ' ' || c == '\t' || c == '\n' || c == '\x0b' || c == '\x0c' || c == '\r'

/-- `re.sub(r'[<>:"/\\|?*]', '_', s)` at character level. -/
def repl (l : List Char) : List Char :=
  l.map (fun c => if isIll c then '_' else c)

/-- Worker for `re.sub(r'\s+', ' ', s)`: the flag records whether the
previous character belonged to a whitespace run that already emitted
its single `' '`. -/
def collapseGo : Bool → List Char → List Char
  | _, [] => []
  | prevWs, c :: t =>
    if isWs c then
      if prevWs then collapseGo true t else ' ' :: collapseGo true t
    else c :: collapseGo false t

/-- `re.sub(r'\s+', ' ', s)`: every maximal whitespace run becomes one space. -/
def collapse (l : List Char) : List Char := collapseGo false l

/-- Remove trailing whitespace (the right half of `str.strip`). -/
def stripR (l : List Char) : List Char := (l.reverse.dropWhile isWs).reverse

/-- Python `str.strip()`. -/
def strip (l : List Char) : List Char := stripR (l.dropWhile isWs)

/-- The truncation marker appended by `sanitize_filename`. -/
def dots : List Char := ['.', '.', '.']

/-- The normalisation pipeline of `sanitize_filename` before the length
cap: replace illegal characters, collapse whitespace runs, strip. -/
def sanNorm (l : List Char) : List Char := strip (collapse (repl l))

/-- Character-level body of `sanitize_filename`: replace illegal
characters, collapse whitespace runs, strip, truncate to 200 plus `...`. -/
def sanitizeCore (l : List Char) : List Char :=
  let m := sanNorm l
  if m.length > 200 then m.take 200 ++ dots else m

/-- `YouTubePlaylistDownloader.sanitize_filename` (source lines 174-194). -/
def sanitize_filename (s : String) : String := ⟨sanitizeCore s.data⟩

/-- No illegal character occurs in `l`. -/
def NoIll (l : List Char) : Prop := ∀ c ∈ l, isIll c = false

/-- Every whitespace character of `l` is a plain space. -/
def AllSp (l : List Char) : Prop := ∀ c ∈ l, isWs c = true → c = ' '

/-- No two adjacent characters of the list are both whitespace. -/
def noAdj : List Char → Bool
  | [] => true
  | [_] => true
  | a :: b :: t => (!(isWs a && isWs b)) && noAdj (b :: t)

/-- The list does not start with a whitespace character. -/
def headOk : List Char → Bool
  | [] => true
  | c :: _ => !isWs c

/-- The list does not end with a whitespace character. -/
def lastOk (l : List Char) : Bool := headOk l.reverse

theorem noIll_repl (l : List Char) : NoIll (repl l) := by
  intro c hc
  rcases List.mem_map.1 hc with ⟨a, _, ha⟩
  by_cases h : isIll a
  · rw [if_pos h] at ha; subst ha; rfl
  · rw [if_neg h] at ha; subst ha; simpa using h

theorem repl_eq_self (l : List Char) (h : NoIll l) : repl l = l := by
  induction l with
  | nil => rfl
  | cons a t ih =>
    have ha : isIll a = false := h a (by simp)
    have ht : NoIll t := fun c hc => h c (by simp [hc])
    simp only [repl, List.map_cons, ha, if_neg (by simp [ha] : ¬(isIll a = true))]
    exact congrArg (a :: ·) (ih ht)

theorem mem_collapseGo (b : Bool) (l : List Char) :
    ∀ c ∈ collapseGo b l, c = ' ' ∨ c ∈ l := by
  induction l generalizing b with
  | nil => intro c hc; simp [collapseGo] at hc
  | cons a t ih =>
    intro c hc
    by_cases hw : isWs a
    · cases b with
      | true =>
        rw [collapseGo, if_pos hw, if_pos rfl] at hc
        rcases ih true c hc with h | h
        · exact Or.inl h
        · exact Or.inr (by simp [h])
      | false =>
        rw [collapseGo, if_pos hw, if_neg (by simp), List.mem_cons] at hc
        rcases hc with h | h
        · exact Or.inl h
        · rcases ih true c h with h' | h'
          · exact Or.inl h'
          · exact Or.inr (by simp [h'])
    · rw [collapseGo, if_neg hw, List.mem_cons] at hc
      rcases hc with h | h
      · exact Or.inr (by simp [h])
      · rcases ih false c h with h' | h'
        · exact Or.inl h'
        · exact Or.inr (by simp [h'])

theorem allSp_collapseGo (b : Bool) (l : List Char) : AllSp (collapseGo b l) := by
  induction l generalizing b with
  | nil => intro c hc; simp [collapseGo] at hc
  | cons a t ih =>
    intro c hc hw
    by_cases ha : isWs a
    · cases b with
      | true =>
        rw [collapseGo, if_pos ha, if_pos rfl] at hc
        exact ih true c hc hw
      | false =>
        rw [collapseGo, if_pos ha, if_neg (by simp), List.mem_cons] at hc
        rcases hc with h | h
        · exact h
        · exact ih true c h hw
    · rw [collapseGo, if_neg ha, List.mem_cons] at hc
      rcases hc with h | h
      · subst h; exact absurd hw (by simpa using ha)
      · exact ih false c h hw

theorem headOk_collapseGo_true (l : List Char) :
    headOk (collapseGo true l) = true := by
  induction l with
  | nil => rfl
  | cons a t ih =>
    by_cases ha : isWs a
    · rw [collapseGo, if_pos ha, if_pos rfl]; exact ih
    · rw [collapseGo, if_neg ha, headOk]; simpa using ha

theorem noAdj_tail {a : Char} {t : List Char} (h : noAdj (a :: t) = true) :
    noAdj t = true := by
  cases t with
  | nil => rfl
  | cons b t' =>
    rw [noAdj, Bool.and_eq_true] at h
    exact h.2

theorem noAdj_cons_of (a : Char) (r : List Char) (hr : noAdj r = true)
    (h : isWs a = false ∨ headOk r = true) : noAdj (a :: r) = true := by
  cases r with
  | nil => rfl
  | cons b t =>
    rw [noAdj, Bool.and_eq_true]
    refine ⟨?_, hr⟩
    rcases h with h | h
    · simp [h]
    · rw [headOk] at h
      simp only [Bool.not_eq_true'] at h
      simp [h]

theorem noAdj_collapseGo (b : Bool) (l : List Char) :
    noAdj (collapseGo b l) = true := by
  induction l generalizing b with
  | nil => rfl
  | cons a t ih =>
    by_cases ha : isWs a
    · cases b with
      | true => rw [collapseGo, if_pos ha, if_pos rfl]; exact ih true
      | false =>
        rw [collapseGo, if_pos ha, if_neg (by simp)]
        exact noAdj_cons_of ' ' _ (ih true) (Or.inr (headOk_collapseGo_true t))
    · rw [collapseGo, if_neg ha]
      exact noAdj_cons_of a _ (ih false) (Or.inl (by simpa using ha))

theorem collapseGo_true_eq_false (t : List Char) (h : headOk t = true) :
    collapseGo true t = collapseGo false t := by
  cases t with
  | nil => rfl
  | cons c t' =>
    rw [headOk] at h
    simp only [Bool.not_eq_true'] at h
    rw [collapseGo, collapseGo, if_neg (by simp [h]), if_neg (by simp [h])]

theorem collapse_eq_self (l : List Char) (hs : AllSp l) (hn : noAdj l = true) :
    collapseGo false l = l := by
  induction l with
  | nil => rfl
  | cons a t ih =>
    have hnt : noAdj t = true := noAdj_tail hn
    have hst : AllSp t := fun c hc hw => hs c (by simp [hc]) hw
    by_cases ha : isWs a
    · have ha' : a = ' ' := hs a (by simp) ha
      have hho : headOk t = true := by
        cases t with
        | nil => rfl
        | cons b t' =>
          rw [noAdj, Bool.and_eq_true] at hn
          have h1 := hn.1
          rw [ha] at h1
          have hb : isWs b = false := by simpa using h1
          rw [headOk]; simp [hb]
      rw [collapseGo, if_pos ha, if_neg (by simp),
        collapseGo_true_eq_false t hho, ih hst hnt, ha']
    · rw [collapseGo, if_neg ha]
      exact congrArg (a :: ·) (ih hst hnt)

theorem headOk_dropWhile (l : List Char) : headOk (l.dropWhile isWs) = true := by
  induction l with
  | nil => rfl
  | cons a t ih =>
    by_cases ha : isWs a
    · rw [List.dropWhile_cons, if_pos ha]; exact ih
    · rw [List.dropWhile_cons, if_neg ha, headOk]; simpa using ha

theorem dropWhile_eq_self_of_headOk (l : List Char) (h : headOk l = true) :
    l.dropWhile isWs = l := by
  cases l with
  | nil => rfl
  | cons a t =>
    rw [headOk] at h
    simp only [Bool.not_eq_true'] at h
    rw [List.dropWhile_cons, if_neg (by simp [h])]

theorem dropWhile_append_eq (l : List Char) :
    ∃ s, s ++ l.dropWhile isWs = l := by
  induction l with
  | nil => exact ⟨[], rfl⟩
  | cons a t ih =>
    by_cases ha : isWs a
    · obtain ⟨s, hs⟩ := ih
      exact ⟨a :: s, by rw [List.dropWhile_cons, if_pos ha, List.cons_append, hs]⟩
    · exact ⟨[], by rw [List.dropWhile_cons, if_neg ha, List.nil_append]⟩

theorem mem_dropWhile (c : Char) (l : List Char) (h : c ∈ l.dropWhile isWs) :
    c ∈ l := by
  obtain ⟨s, hs⟩ := dropWhile_append_eq l
  rw [← hs, List.mem_append]
  exact Or.inr h

theorem mem_strip (c : Char) (l : List Char) (h : c ∈ strip l) : c ∈ l := by
  rw [strip, stripR, List.mem_reverse] at h
  have h2 := mem_dropWhile c _ h
  rw [List.mem_reverse] at h2
  exact mem_dropWhile c l h2

theorem stripR_append_eq (l : List Char) : ∃ r, stripR l ++ r = l := by
  obtain ⟨s, hs⟩ := dropWhile_append_eq l.reverse
  refine ⟨s.reverse, ?_⟩
  have h1 : (s ++ l.reverse.dropWhile isWs).reverse = l.reverse.reverse := by
    rw [hs]
  rw [List.reverse_append, List.reverse_reverse] at h1
  rw [stripR, h1]

theorem noAdj_of_append (s l : List Char) (h : noAdj (s ++ l) = true) :
    noAdj l = true := by
  induction s with
  | nil => exact h
  | cons a s' ih =>
    rw [List.cons_append] at h
    exact ih (noAdj_tail h)

theorem noAdj_take (n : Nat) (l : List Char) (h : noAdj l = true) :
    noAdj (l.take n) = true := by
  induction l generalizing n with
  | nil => simp [noAdj]
  | cons a t ih =>
    cases n with
    | zero => rfl
    | succ n' =>
      have ht : noAdj (t.take n') = true := ih n' (noAdj_tail h)
      rw [List.take_succ_cons]
      cases t with
      | nil => rw [List.take_nil]; rfl
      | cons b t' =>
        cases n' with
        | zero => rfl
        | succ m =>
          rw [List.take_succ_cons] at ht ⊢
          rw [noAdj, Bool.and_eq_true] at h ⊢
          exact ⟨h.1, ht⟩

theorem take_len_append (p q : List Char) : (p ++ q).take p.length = p := by
  induction p with
  | nil => rfl
  | cons a p' ih =>
    rw [List.cons_append, List.length_cons, List.take_succ_cons, ih]

theorem noAdj_of_append_left (p r : List Char) (h : noAdj (p ++ r) = true) :
    noAdj p = true := by
  have h1 := noAdj_take p.length (p ++ r) h
  rw [take_len_append] at h1
  exact h1

theorem noAdj_append_dots (l : List Char) (h : noAdj l = true) :
    noAdj (l ++ dots) = true := by
  induction l with
  | nil => decide
  | cons a t ih =>
    cases t with
    | nil =>
      rw [List.cons_append, List.nil_append]
      exact noAdj_cons_of a dots (by decide) (Or.inr (by decide))
    | cons b t' =>
      rw [List.cons_append, List.cons_append, noAdj, Bool.and_eq_true]
      rw [noAdj, Bool.and_eq_true] at h
      refine ⟨h.1, ?_⟩
      have h2 := ih h.2
      rw [List.cons_append] at h2
      exact h2

theorem headOk_take (n : Nat) (l : List Char) (h : headOk l = true) :
    headOk (l.take n) = true := by
  cases l with
  | nil => simp [headOk]
  | cons a t =>
    cases n with
    | zero => rfl
    | succ n' => rw [List.take_succ_cons]; exact h

theorem headOk_append_dots (p : List Char) (h : headOk p = true) :
    headOk (p ++ dots) = true := by
  cases p with
  | nil => rfl
  | cons c p' => exact h

theorem lastOk_append_dots (p : List Char) : lastOk (p ++ dots) = true := by
  rw [lastOk, dots, List.reverse_append]
  rfl

theorem headOk_stripR (l : List Char) (h : headOk l = true) :
    headOk (stripR l) = true := by
  obtain ⟨r, hr⟩ := stripR_append_eq l
  cases hp : stripR l with
  | nil => rfl
  | cons c p' =>
    rw [← hr, hp, List.cons_append] at h
    exact h

theorem headOk_strip (l : List Char) : headOk (strip l) = true :=
  headOk_stripR _ (headOk_dropWhile l)

theorem lastOk_strip (l : List Char) : lastOk (strip l) = true := by
  rw [lastOk, strip, stripR, List.reverse_reverse]
  exact headOk_dropWhile _

theorem stripR_eq_self (l : List Char) (h : lastOk l = true) : stripR l = l := by
  rw [lastOk] at h
  rw [stripR, dropWhile_eq_self_of_headOk l.reverse h, List.reverse_reverse]

theorem strip_eq_self (l : List Char) (h1 : headOk l = true) (h2 : lastOk l = true) :
    strip l = l := by
  rw [strip, dropWhile_eq_self_of_headOk l h1, stripR_eq_self l h2]

theorem noAdj_strip (l : List Char) (h : noAdj l = true) :
    noAdj (strip l) = true := by
  obtain ⟨s, hs⟩ := dropWhile_append_eq l
  rw [← hs] at h
  have h1 : noAdj (l.dropWhile isWs) = true := noAdj_of_append s _ h
  obtain ⟨r, hr⟩ := stripR_append_eq (l.dropWhile isWs)
  rw [← hr] at h1
  exact noAdj_of_append_left _ r h1

theorem sanNorm_noIll (l : List Char) : NoIll (sanNorm l) := by
  intro c hc
  have h1 := mem_strip c _ hc
  rcases mem_collapseGo false _ c h1 with h | h
  · subst h; rfl
  · exact noIll_repl l c h

theorem sanNorm_allSp (l : List Char) : AllSp (sanNorm l) := by
  intro c hc hw
  exact allSp_collapseGo false _ c (mem_strip c _ hc) hw

theorem sanNorm_noAdj (l : List Char) : noAdj (sanNorm l) = true :=
  noAdj_strip _ (noAdj_collapseGo false _)

theorem sanNorm_headOk (l : List Char) : headOk (sanNorm l) = true :=
  headOk_strip _

theorem sanNorm_lastOk (l : List Char) : lastOk (sanNorm l) = true :=
  lastOk_strip _

theorem sanNorm_eq_self (l : List Char) (h1 : NoIll l) (h2 : AllSp l)
    (h3 : noAdj l = true) (h4 : headOk l = true) (h5 : lastOk l = true) :
    sanNorm l = l := by
  rw [sanNorm, repl_eq_self l h1, collapse, collapse_eq_self l h2 h3,
    strip_eq_self l h4 h5]

theorem take_append_dots (p : List Char) (hp : p.length = 200) :
    (p ++ dots).take 200 = p := by
  rw [← hp]
  exact take_len_append p dots

theorem mem_of_take {c : Char} {n : Nat} {l : List Char} (h : c ∈ l.take n) :
    c ∈ l := by
  induction l generalizing n with
  | nil => rw [List.take_nil] at h; exact h
  | cons a t ih =>
    cases n with
    | zero => exact absurd h (by simp)
    | succ n' =>
      rw [List.take_succ_cons, List.mem_cons] at h
      rcases h with h | h
      · simp [h]
      · exact List.mem_cons_of_mem a (ih h)

theorem sanitizeCore_idem (l : List Char) :
    sanitizeCore (sanitizeCore l) = sanitizeCore l := by
  by_cases h : (sanNorm l).length > 200
  · have hz : sanitizeCore l = (sanNorm l).take 200 ++ dots := by
      rw [sanitizeCore]
      exact if_pos h
    have hlen : ((sanNorm l).take 200).length = 200 := by
      rw [List.length_take]
      exact Nat.min_eq_left (Nat.le_of_lt h)
    have hIll : NoIll ((sanNorm l).take 200 ++ dots) := by
      intro c hc
      rcases List.mem_append.1 hc with h1 | h1
      · exact sanNorm_noIll l c (mem_of_take h1)
      · have : c = '.' := by simpa [dots] using h1
        subst this; rfl
    have hSp : AllSp ((sanNorm l).take 200 ++ dots) := by
      intro c hc hw
      rcases List.mem_append.1 hc with h1 | h1
      · exact sanNorm_allSp l c (mem_of_take h1) hw
      · have : c = '.' := by simpa [dots] using h1
        subst this
        exact absurd hw (by decide)
    have hAdj : noAdj ((sanNorm l).take 200 ++ dots) = true :=
      noAdj_append_dots _ (noAdj_take 200 _ (sanNorm_noAdj l))
    have hH : headOk ((sanNorm l).take 200 ++ dots) = true :=
      headOk_append_dots _ (headOk_take 200 _ (sanNorm_headOk l))
    have hL : lastOk ((sanNorm l).take 200 ++ dots) = true :=
      lastOk_append_dots ((sanNorm l).take 200)
    have hfix : sanNorm ((sanNorm l).take 200 ++ dots) =
        (sanNorm l).take 200 ++ dots :=
      sanNorm_eq_self _ hIll hSp hAdj hH hL
    have hzlen : ((sanNorm l).take 200 ++ dots).length = 203 := by
      rw [List.length_append, hlen]
      rfl
    rw [hz, sanitizeCore]
    simp only [hfix, hzlen]
    rw [if_pos (by norm_num), take_append_dots _ hlen]
  · have hz : sanitizeCore l = sanNorm l := by
      rw [sanitizeCore]
      exact if_neg h
    have hfix : sanNorm (sanNorm l) = sanNorm l :=
      sanNorm_eq_self _ (sanNorm_noIll l) (sanNorm_allSp l) (sanNorm_noAdj l)
        (sanNorm_headOk l) (sanNorm_lastOk l)
    rw [hz, sanitizeCore]
    simp only [hfix]
    exact if_neg h

/-- C7: `sanitize_filename` is idempotent: sanitising an already
sanitised string leaves it unchanged. -/
theorem C7_sanitize_filename_idempotent (x : String) :
    sanitize_filename (sanitize_filename x) = sanitize_filename x := by
  show (⟨sanitizeCore (sanitizeCore x.data)⟩ : String) = ⟨sanitizeCore x.data⟩
  exact congrArg String.mk (sanitizeCore_idem x.data)

/-- C8: for every input string the output of `sanitize_filename` contains
none of the characters `<` `>` `:` `"` `/` `\` `|` `?` `*`, and its length
is at most 203 (200 plus the 3-character `...` truncation marker). -/
theorem C8_sanitize_filename_safe (x : String) :
    (∀ c ∈ (sanitize_filename x).data,
      c ∉ (['<', '>', ':', '\"', '/', '\\', '|', '?', '*'] : List Char)) ∧
    (sanitize_filename x).length ≤ 203 := by
  constructor
  · intro c hc hmem
    have hIll : isIll c = false := by
      have h1 : (sanitize_filename x).data = sanitizeCore x.data := rfl
      rw [h1, sanitizeCore] at hc
      by_cases h : (sanNorm x.data).length > 200
      · rw [if_pos h] at hc
        rcases List.mem_append.1 hc with h2 | h2
        · exact sanNorm_noIll x.data c (mem_of_take h2)
        · have : c = '.' := by simpa [dots] using h2
          subst this; rfl
      · rw [if_neg h] at hc
        exact sanNorm_noIll x.data c hc
    simp only [List.mem_cons, List.not_mem_nil, or_false] at hmem
    rcases hmem with rfl | rfl | rfl | rfl | rfl | rfl | rfl | rfl | rfl <;>
      revert hIll <;> decide
  · have h1 : (sanitize_filename x).length = (sanitizeCore x.data).length := rfl
    rw [h1, sanitizeCore]
    by_cases h : (sanNorm x.data).length > 200
    · rw [if_pos h, List.length_append, List.length_take,
        Nat.min_eq_left (Nat.le_of_lt h)]
      norm_num [dots]
    · rw [if_neg h]
      omega

/-- Witness for C8 at a concrete input containing illegal characters. -/
theorem C8_witness :
    '<' ∉ (sanitize_filename "a<b?c").data ∧
    (sanitize_filename "a<b?c").length ≤ 203 :=
  ⟨fun h => (C8_sanitize_filename_safe "a<b?c").1 '<' h (by decide),
   (C8_sanitize_filename_safe "a<b?c").2⟩

/-- ASCII model of Python `str.lower`. -/
def lowerChar (c : Char) : Char :=
  if 'A' ≤ c ∧ c ≤ 'Z' then Char.ofNat (c.toNat + 32) else c

/-- Lower-case a string (ASCII model of `str.lower`). -/
def lowerStr (s : String) : String := ⟨s.data.map lowerChar⟩

/-- ASCII model of Python `str.upper` at character level. -/
def upperChar (c : Char) : Char :=
  if 'a' ≤ c ∧ c ≤ 'z' then Char.ofNat (c.toNat - 32) else c

/-- Upper-case a string (ASCII model of `str.upper`). -/
def upperStr (s : String) : String := ⟨s.data.map upperChar⟩

/-- ASCII instance of the regex class `\w` (word character).  Python's
`\w` matches all Unicode word characters (Unicode alphanumerics plus
the underscore), a Unicode-data-driven set; the keyword pipeline below
is therefore also stated parametrically in the word-character predicate
(`removeNonWordW` and friends), and this ASCII instance is used for the
concrete evaluations whose titles are ASCII, where it agrees with
Python's `\w`. -/
def wordChar (c : Char) : Bool := c.isAlphanum || c == '_'

/-- `re.sub(r'[^\w\s]', '', s)` parametrically in the word-character
predicate `w` standing for the regex class `\w`: drop characters that
are neither word characters nor whitespace. -/
def removeNonWordW (w : Char → Bool) (l : List Char) : List Char :=
  l.filter (fun c => w c || isWs c)

/-- `re.sub(r'[^\w\s]', '', s)` at the ASCII instance of `\w`. -/
def removeNonWord (l : List Char) : List Char :=
  removeNonWordW wordChar l

/-- Worker for Python `str.split()`; `acc` holds the current token reversed. -/
def splitWsGo (acc : List Char) : List Char → List String
  | [] => if acc.isEmpty then [] else [⟨acc.reverse⟩]
  | c :: t =>
    if isWs c then
      if acc.isEmpty then splitWsGo [] t else ⟨acc.reverse⟩ :: splitWsGo [] t
    else splitWsGo (c :: acc) t

/-- Python `str.split()`: split on whitespace runs, no empty tokens. -/
def splitWs (l : List Char) : List String := splitWsGo [] l

/-- Python substring test `needle in hay`. -/
def containsSub (needle : List Char) : List Char → Bool
  | [] => needle.isEmpty
  | c :: t => needle.isPrefixOf (c :: t) || containsSub needle t

/-- Python `f"{index:02d}"`. -/
def pad2 (n : Nat) : String := if n < 10 then "0" ++ toString n else toString n

/-- pathlib's split of a file name into stem and suffix: the suffix starts
at the last dot, provided that dot is neither the first nor the last
character of the name. -/
def splitName (name : List Char) : List Char × List Char :=
  let r := name.reverse
  let afterDot := r.takeWhile (fun c => c != '.')
  if afterDot.length = r.length then (name, [])
  else
    let i := name.length - 1 - afterDot.length
    if 0 < i ∧ i < name.length - 1 then (name.take i, name.drop i) else (name, [])

/-- pathlib `Path(name).stem`. -/
def stemOf (name : String) : String := ⟨(splitName name.data).1⟩

/-- pathlib `Path(name).suffix`. -/
def sufOf (name : String) : String := ⟨(splitName name.data).2⟩

/-- First element of the list on which `f` yields a value: models the
first-hit-wins search loops of `check_file_exists`. -/
def firstHit {α β : Type} (f : α → Option β) : List α → Option β
  | [] => none
  | a :: t =>
    match f a with
    | some b => some b
    | none => firstHit f t

/-- The audio extensions probed by `check_file_exists`, in order
(source line 539). -/
def possible_formats : List String := [".wav", ".mp3", ".m4a", ".webm", ".opus"]

/-- The exact-match phase of `check_file_exists` (source lines 541-553):
both candidate stems crossed with the extension list, first existing
file wins, format label is the extension upper-cased without its dot. -/
def exact_match (fs : List String) (index : Nat) (title : String) :
    Option (String × String) :=
  let clean_title := sanitize_filename title
  let pats := [pad2 index ++ " - " ++ clean_title, pad2 index ++ " - " ++ title]
  firstHit (fun pat =>
    firstHit (fun ext =>
      if (pat ++ ext) ∈ fs then some (pat ++ ext, upperStr ⟨ext.data.drop 1⟩)
      else none) possible_formats) pats

/-- The significant keywords of a title (source lines 563-569): sanitise,
lower-case, strip non-word characters, split on whitespace, keep the
tokens longer than 2 characters. -/
def significant_keywords (title : String) : List String :=
  let clean_title := sanitize_filename title
  let title_lower := lowerStr clean_title
  let title_keywords := splitWs (removeNonWord title_lower.data)
  title_keywords.filter (fun kw => kw.length > 2)

/-- Format label of a fuzzy match (source line 575): upper-cased extension
without the dot, `"UNKNOWN"` for an extension-less file. -/
def fmt_label (name : String) : String :=
  let suf := sufOf name
  if suf.isEmpty then "UNKNOWN" else upperStr ⟨suf.data.drop 1⟩

/-- Does the fuzzy phase accept file `name` for the given keyword list
(source lines 572-574)?  At least 70% of the significant keywords must
occur as substrings of the lower-cased file stem; the float comparison
`matches >= len(kws) * 0.7` is modelled as exact arithmetic. -/
def fuzzy_accept (kws : List String) (name : String) : Bool :=
  let fstem := lowerStr (stemOf name)
  !kws.isEmpty &&
    decide (10 * (kws.filter (fun kw => containsSub kw.data fstem.data)).length ≥
      7 * kws.length)

/-- The fuzzy phase of `check_file_exists` (source lines 555-578): scan the
files whose name starts with `"{index:02d} -"`, first accepted match wins. -/
def fuzzy_match (fs : List String) (index : Nat) (title : String) :
    Option (String × String) :=
  let kws := significant_keywords title
  let idxPre := (pad2 index ++ " -").data
  firstHit (fun name =>
    if idxPre.isPrefixOf name.data then
      if fuzzy_accept kws name then some (name, fmt_label name) else none
    else none) fs

/-- `YouTubePlaylistDownloader.check_file_exists` (source lines 523-580):
exact phase first, then fuzzy phase, else `(false, none, none)`. -/
def check_file_exists (fs : List String) (index : Nat) (title : String) :
    Bool × Option String × Option String :=
  match exact_match fs index title with
  | some (p, f) => (true, some p, some f)
  | none =>
    match fuzzy_match fs index title with
    | some (p, f) => (true, some p, some f)
    | none => (false, none, none)

theorem firstHit_eq_none {α β : Type} {f : α → Option β}
    (h : ∀ a, f a = none) (l : List α) : firstHit f l = none := by
  induction l with
  | nil => rfl
  | cons a t ih =>
    have h1 : firstHit f (a :: t) =
        match f a with
        | some b => some b
        | none => firstHit f t := rfl
    rw [h1, h a]
    exact ih

/-- C3 counterexample: with only `"01 - A Totally Different Song.mp3"` in
the directory, `check_file_exists(dir, 1, "Song")` returns exists=true
(not false as the claim states): the sole significant keyword `"song"`
is a substring of the lower-cased file stem, so the fuzzy phase accepts
with 100% keyword overlap. -/
theorem C3_counterexample :
    (check_file_exists ["01 - A Totally Different Song.mp3"] 1 "Song").1 = true := by
  rfl

/-- C3 amended: with only `"01 - A Totally Different Song.mp3"` in the
directory, `check_file_exists(dir, 1, "Song")` returns exists=true with
that file as the match and format label `"MP3"`. -/
theorem C3_amended_fuzzy_hit :
    check_file_exists ["01 - A Totally Different Song.mp3"] 1 "Song" =
      (true, some "01 - A Totally Different Song.mp3", some "MP3") := by
  rfl

/-- The significant keywords of a title (source lines 563-569),
parametrically in the word-character predicate `w` standing for Python's
Unicode-data-driven `\w`. -/
def significant_keywords_w (w : Char → Bool) (title : String) : List String :=
  let clean_title := sanitize_filename title
  let title_lower := lowerStr clean_title
  let title_keywords := splitWs (removeNonWordW w title_lower.data)
  title_keywords.filter (fun kw => kw.length > 2)

/-- The fuzzy phase of `check_file_exists` (source lines 555-578),
parametrically in the word-character predicate. -/
def fuzzy_match_w (w : Char → Bool) (fs : List String) (index : Nat)
    (title : String) : Option (String × String) :=
  let kws := significant_keywords_w w title
  let idxPre := (pad2 index ++ " -").data
  firstHit (fun name =>
    if idxPre.isPrefixOf name.data then
      if fuzzy_accept kws name then some (name, fmt_label name) else none
    else none) fs

/-- `check_file_exists` parametrically in the word-character predicate:
the exact phase does not involve `\w` and is unchanged. -/
def check_file_exists_w (w : Char → Bool) (fs : List String) (index : Nat)
    (title : String) : Bool × Option String × Option String :=
  match exact_match fs index title with
  | some (p, f) => (true, some p, some f)
  | none =>
    match fuzzy_match_w w fs index title with
    | some (p, f) => (true, some p, some f)
    | none => (false, none, none)

/-- At the ASCII word-character instance the parametric resolver is the
concrete `check_file_exists`. -/
theorem check_file_exists_w_wordChar (fs : List String) (index : Nat)
    (title : String) :
    check_file_exists_w wordChar fs index title =
      check_file_exists fs index title := rfl

/-- C10: for every word-character semantics `w` — in particular Python's
true Unicode `\w`, which no Lean predicate reproduces — and every
directory, ordinal and title: when the title yields no significant
keyword (every token of the sanitised, lower-cased, non-word-stripped,
whitespace-split title has at most 2 characters), the fuzzy phase of
`check_file_exists` can never accept a file, so the result is
exists=true exactly when the exact stem-plus-extension phase hits —
even when files with the matching ordinal prefix are present. -/
theorem C10_no_keywords_no_fuzzy (w : Char → Bool) (fs : List String)
    (index : Nat) (title : String)
    (h : significant_keywords_w w title = []) :
    (check_file_exists_w w fs index title).1 =
      (exact_match fs index title).isSome := by
  have hfz : fuzzy_match_w w fs index title = none := by
    rw [fuzzy_match_w]
    simp only [h]
    apply firstHit_eq_none
    intro name
    simp [fuzzy_accept]
  rw [check_file_exists_w, hfz]
  cases hex : exact_match fs index title with
  | none => rfl
  | some pf => rfl

/-- Witness for C10: under the ASCII instance (exact for this ASCII
title) `"ab cd"` has only 2-character keywords, the directory holds a
file with the matching `"01 -"` ordinal prefix, and the resolver still
reports exists=false (no exact match). -/
theorem C10_witness :
    significant_keywords_w wordChar "ab cd" = [] ∧
    (check_file_exists_w wordChar ["01 - xy.mp3"] 1 "ab cd").1 =
      (exact_match ["01 - xy.mp3"] 1 "ab cd").isSome ∧
    (check_file_exists ["01 - xy.mp3"] 1 "ab cd").1 = false :=
  ⟨by rfl, C10_no_keywords_no_fuzzy wordChar ["01 - xy.mp3"] 1 "ab cd" (by rfl),
    by rfl⟩

/-- A word-character predicate extending the ASCII instance with the CJK
Unified Ideographs block, on which it agrees with Python's `\w`. -/
def wordCharCJK (c : Char) : Bool :=
  wordChar c || (0x4E00 ≤ c.toNat && c.toNat ≤ 0x9FFF)

/-- Under a word-character semantics that, like Python's `\w`, covers CJK
ideographs, a 3-character CJK title yields one significant keyword — so
C10's no-significant-keyword hypothesis correctly excludes it — and the
fuzzy phase accepts an ordinal-prefixed file for it with no exact match
(exists=true, format FLAC). -/
theorem cjk_title_fuzzy_hit :
    significant_keywords_w wordCharCJK "五月天" = ["五月天"] ∧
    check_file_exists_w wordCharCJK ["01 - 五月天.flac"] 1 "五月天" =
      (true, some "01 - 五月天.flac", some "FLAC") ∧
    exact_match ["01 - 五月天.flac"] 1 "五月天" = none :=
  ⟨rfl, rfl, rfl⟩

/-- Audio formats attempted by `download_with_format_fallback`: `wav` is
the primary (lossless) codec, `mp3` the secondary fallback. -/
inductive Fmt
  | wav
  | mp3
deriving DecidableEq, Repr

/-- One playlist entry as consumed by `download_playlist`: a yt-dlp info
dict with optional `title` and `webpage_url` keys. -/
structure EntryData where
  title : Option String
  webpage_url : Option String
deriving DecidableEq, Repr

/-- One element of `self.format_attempts` (source lines 486-492, 514-519). -/
structure AttemptRecord where
  index : Nat
  title : String
  format : Fmt
  error : String
  timestamp : String
deriving DecidableEq, Repr

/-- One element of `self.failed_downloads` (source lines 333-339). -/
structure FailureRecord where
  index : Nat
  title : String
  url : String
  error : String
  timestamp : String
deriving DecidableEq, Repr

/-- Behaviour of the yt-dlp collaborator: for a video URL and a target
format, `none` means `ydl.download` succeeded, `some e` means it raised
an exception with message `e` (deterministic oracle). -/
abbrev Dl : Type := String → Fmt → Option String

/-- File name produced by the per-entry output template
`"{index:02d} - %(title)s.%(ext)s"` (source line 321). -/
def outName (index : Nat) (title : String) (ext : String) : String :=
  pad2 index ++ " - " ++ title ++ "." ++ ext

/-- The downloader object state plus run instrumentation: `fs` is the
playlist directory contents, `codecCalls` records every yt-dlp download
invocation of the current run, `checks` the ordinals passed to
`check_file_exists`, `outIdx` the ordinals used to build the per-entry
output templates. -/
structure RunState where
  fs : List String
  success_count : Nat
  total_count : Nat
  failed_downloads : List FailureRecord
  format_attempts : List AttemptRecord
  codecCalls : List (String × Fmt)
  checks : List Nat
  outIdx : List Nat
deriving DecidableEq, Repr

/-- Fresh downloader state over a directory already containing `fs0`. -/
def initState (fs0 : List String) : RunState :=
  ⟨fs0, 0, 0, [], [], [], [], []⟩

/-- `YouTubePlaylistDownloader.download_with_format_fallback`
(source lines 454-521): try WAV; on failure record the attempt and try
MP3; on failure record that attempt too and fail with the combined
format-tagged message.  A successful attempt materialises the output
file named by the template. -/
def download_with_format_fallback (dl : Dl) (now : String)
    (video_url : String) (title : String) (index : Nat) (st : RunState) :
    (Bool × Option Fmt × Option String) × RunState :=
  let st1 := { st with codecCalls := st.codecCalls ++ [(video_url, Fmt.wav)] }
  match dl video_url Fmt.wav with
  | none =>
    ((true, some Fmt.wav, none),
      { st1 with fs := st1.fs ++ [outName index title "wav"] })
  | some wav_error_msg =>
    let st2 := { st1 with format_attempts :=
      st1.format_attempts ++ [AttemptRecord.mk index title Fmt.wav wav_error_msg now] }
    let st3 := { st2 with codecCalls := st2.codecCalls ++ [(video_url, Fmt.mp3)] }
    match dl video_url Fmt.mp3 with
    | none =>
      ((true, some Fmt.mp3, none),
        { st3 with fs := st3.fs ++ [outName index title "mp3"] })
    | some mp3_error_msg =>
      let st4 := { st3 with format_attempts :=
        st3.format_attempts ++ [AttemptRecord.mk index title Fmt.mp3 mp3_error_msg now] }
      ((false, none,
          some ("WAV: " ++ wav_error_msg ++ "; MP3: " ++ mp3_error_msg)), st4)

/-- C5: contract of the format-fallback downloader for every collaborator
behaviour: primary success returns (success, WAV) and appends no
AttemptRecord; primary failure then secondary success returns
(success, MP3) and appends exactly one AttemptRecord (format WAV);
double failure returns failure with the combined format-tagged error
message and appends exactly two AttemptRecords (WAV then MP3). -/
theorem C5_format_fallback_contract (dl : Dl) (now video_url title : String)
    (index : Nat) (st : RunState) :
    (dl video_url Fmt.wav = none →
      (download_with_format_fallback dl now video_url title index st).1 =
        (true, some Fmt.wav, none) ∧
      (download_with_format_fallback dl now video_url title index st).2.format_attempts =
        st.format_attempts) ∧
    (∀ ew, dl video_url Fmt.wav = some ew → dl video_url Fmt.mp3 = none →
      (download_with_format_fallback dl now video_url title index st).1 =
        (true, some Fmt.mp3, none) ∧
      (download_with_format_fallback dl now video_url title index st).2.format_attempts =
        st.format_attempts ++ [AttemptRecord.mk index title Fmt.wav ew now]) ∧
    (∀ ew em, dl video_url Fmt.wav = some ew → dl video_url Fmt.mp3 = some em →
      (download_with_format_fallback dl now video_url title index st).1 =
        (false, none, some ("WAV: " ++ ew ++ "; MP3: " ++ em)) ∧
      (download_with_format_fallback dl now video_url title index st).2.format_attempts =
        st.format_attempts ++ [AttemptRecord.mk index title Fmt.wav ew now,
          AttemptRecord.mk index title Fmt.mp3 em now]) := by
  refine ⟨?_, ?_, ?_⟩
  · intro h
    simp [download_with_format_fallback, h]
  · intro ew hw hm
    simp [download_with_format_fallback, hw, hm]
  · intro ew em hw hm
    simp [download_with_format_fallback, hw, hm]

/-- Collaborator stub that always succeeds. -/
def dlOkW : Dl := fun _ _ => none

/-- Collaborator stub failing the WAV attempt, succeeding the MP3 one. -/
def dlWavFail : Dl := fun _ f =>
  match f with
  | Fmt.wav => some "e1"
  | Fmt.mp3 => none

/-- Collaborator stub failing both attempts. -/
def dlBothFail : Dl := fun _ f =>
  match f with
  | Fmt.wav => some "e1"
  | Fmt.mp3 => some "e2"

/-- Witness for C5: the three collaborator behaviours at concrete inputs. -/
theorem C5_witness :
    ((download_with_format_fallback dlOkW "t" "u" "T" 1 (initState [])).1 =
        (true, some Fmt.wav, none) ∧
      (download_with_format_fallback dlOkW "t" "u" "T" 1 (initState [])).2.format_attempts =
        (initState []).format_attempts) ∧
    ((download_with_format_fallback dlWavFail "t" "u" "T" 1 (initState [])).1 =
        (true, some Fmt.mp3, none) ∧
      (download_with_format_fallback dlWavFail "t" "u" "T" 1 (initState [])).2.format_attempts =
        (initState []).format_attempts ++ [AttemptRecord.mk 1 "T" Fmt.wav "e1" "t"]) ∧
    ((download_with_format_fallback dlBothFail "t" "u" "T" 1 (initState [])).1 =
        (false, none, some ("WAV: " ++ "e1" ++ "; MP3: " ++ "e2")) ∧
      (download_with_format_fallback dlBothFail "t" "u" "T" 1 (initState [])).2.format_attempts =
        (initState []).format_attempts ++ [AttemptRecord.mk 1 "T" Fmt.wav "e1" "t",
          AttemptRecord.mk 1 "T" Fmt.mp3 "e2" "t"]) :=
  ⟨(C5_format_fallback_contract dlOkW "t" "u" "T" 1 (initState [])).1 rfl,
   (C5_format_fallback_contract dlWavFail "t" "u" "T" 1 (initState [])).2.1 "e1" rfl rfl,
   (C5_format_fallback_contract dlBothFail "t" "u" "T" 1 (initState [])).2.2 "e1" "e2" rfl rfl⟩

/-- Summary success rate of `show_download_summary` (source line 394):
`(success_count / self.total_count) * 100 if self.total_count > 0 else 0`,
the float division modelled as exact rational division. -/
def success_rate (success_count total_count : Nat) : ℚ :=
  if total_count > 0 then ((success_count : ℚ) / total_count) * 100 else 0

/-- C9: the summary success rate equals 100·s/t whenever t > 0 and is
defined as 0 when t = 0, so the computation is total and never divides
by zero. -/
theorem C9_success_rate_total (s t : Nat) :
    (0 < t → success_rate s t = 100 * (s : ℚ) / (t : ℚ)) ∧
    (t = 0 → success_rate s t = 0) := by
  constructor
  · intro h
    rw [success_rate, if_pos h]
    ring
  · intro h
    subst h
    rfl

/-- Witness for C9 at concrete counts. -/
theorem C9_witness :
    success_rate 3 4 = 100 * ((3 : Nat) : ℚ) / ((4 : Nat) : ℚ) ∧
    success_rate 5 0 = 0 :=
  ⟨(C9_success_rate_total 3 4).1 (by norm_num), (C9_success_rate_total 5 0).2 rfl⟩

/-- Playlist metadata returned by `get_playlist_info` (source lines
224-230): title and ordered entry list; `none` entries model the falsy
entries of removed/unavailable videos (`if not entry: continue`). -/
structure PlaylistInfo where
  title : String
  entries : List (Option EntryData)
deriving DecidableEq, Repr

/-- The entry-window slicing and expected-total computation of
`download_playlist` (source lines 264-273).  Python
`entries[start_index-1:end_index]` is `drop (start-1)` then
`take (end-(start-1))`; `if end_index:` treats both `None` and `0` as
falsy; `end_index - start_index + 1` is modelled with truncated Nat
subtraction (the claims only use windows with end ≥ start ≥ 1). -/
def sliceEntries (entries : List (Option EntryData)) (start_index : Nat)
    (end_index : Option Nat) : List (Option EntryData) × Nat :=
  match end_index with
  | some e =>
    if e ≠ 0 then
      ((entries.drop (start_index - 1)).take (e - (start_index - 1)),
        e - start_index + 1)
    else if start_index > 1 then
      (entries.drop (start_index - 1), (entries.drop (start_index - 1)).length)
    else (entries, entries.length)
  | none =>
    if start_index > 1 then
      (entries.drop (start_index - 1), (entries.drop (start_index - 1)).length)
    else (entries, entries.length)

/-- The per-entry loop of `download_playlist` (source lines 300-341) over
the sliced entries, with 1-based window ordinal `i` (`enumerate(entries,
1)`; the ordinal advances on falsy entries too).  The returned Bool is
`false` when the loop was aborted by the `KeyError` raised by
`entry['webpage_url']` (source line 323) on a non-empty entry lacking
that key — the exception is caught by the surrounding `except` (source
lines 346-350); otherwise `true`. -/
def download_playlist_loop (dl : Dl) (now : String) :
    Nat → List (Option EntryData) → RunState → RunState × Bool
  | _, [], st => (st, true)
  | i, none :: rest, st => download_playlist_loop dl now (i + 1) rest st
  | i, some e :: rest, st =>
    let title := e.title.getD "未知標題"
    let st1 := { st with checks := st.checks ++ [i] }
    if (check_file_exists st1.fs i title).1 then
      download_playlist_loop dl now (i + 1) rest
        { st1 with success_count := st1.success_count + 1 }
    else
      let st2 := { st1 with outIdx := st1.outIdx ++ [i] }
      match e.webpage_url with
      | none => (st2, false)
      | some url =>
        let r := download_with_format_fallback dl now url title i st2
        if r.1.1 then
          download_playlist_loop dl now (i + 1) rest
            { r.2 with success_count := r.2.success_count + 1 }
        else
          download_playlist_loop dl now (i + 1) rest
            { r.2 with failed_downloads := r.2.failed_downloads ++
                [FailureRecord.mk i title (e.webpage_url.getD "")
                  (r.1.2.2.getD "") now] }

/-- `YouTubePlaylistDownloader.download_playlist` (source lines 239-350):
return false if enumeration yielded nothing; slice the window; reset the
per-run counters and instrumentation; run the per-entry loop; the ledger
save and summary that follow are IO/display only.  The run-level
`except` turns an exception escaping the loop into a `False` return,
keeping the object state mutated so far. -/
def download_playlist (dl : Dl) (now : String)
    (playlist_info : Option PlaylistInfo) (start_index : Nat)
    (end_index : Option Nat) (st : RunState) : Bool × RunState :=
  match playlist_info with
  | none => (false, st)
  | some pi =>
    let se := sliceEntries pi.entries start_index end_index
    let st0 := { st with
      success_count := 0
      total_count := se.2
      codecCalls := []
      checks := []
      outIdx := [] }
    let r := download_playlist_loop dl now 1 se.1 st0
    (r.2, r.1)

/-- The 10-entry playlist of the C6 scenario, with arbitrary titles and
URLs. -/
def c6playlist (t1 t2 t3 t4 t5 t6 t7 t8 t9 t10 : String)
    (u1 u2 u3 u4 u5 u6 u7 u8 u9 u10 : String) : PlaylistInfo :=
  ⟨"PL", [some (EntryData.mk (some t1) (some u1)),
          some (EntryData.mk (some t2) (some u2)),
          some (EntryData.mk (some t3) (some u3)),
          some (EntryData.mk (some t4) (some u4)),
          some (EntryData.mk (some t5) (some u5)),
          some (EntryData.mk (some t6) (some u6)),
          some (EntryData.mk (some t7) (some u7)),
          some (EntryData.mk (some t8) (some u8)),
          some (EntryData.mk (some t9) (some u9)),
          some (EntryData.mk (some t10) (some u10))]⟩

/-- C6: for the requested window [3,5] over a 10-entry playlist,
`download_playlist` processes exactly 3 entries, the window-relative
ordinals passed to `check_file_exists` are 1,2,3, the ordinals used for
the per-entry output filename templates are the same 1,2,3, and the
expected total is 3 — for arbitrary titles and URLs, over an empty
directory, with a collaborator whose downloads all fail (so the
directory is unchanged mid-run); the run itself still returns true. -/
theorem C6_window_ordinals (t1 t2 t3 t4 t5 t6 t7 t8 t9 t10 : String)
    (u1 u2 u3 u4 u5 u6 u7 u8 u9 u10 : String) (now : String) :
    (download_playlist dlBothFail now
        (some (c6playlist t1 t2 t3 t4 t5 t6 t7 t8 t9 t10
          u1 u2 u3 u4 u5 u6 u7 u8 u9 u10)) 3 (some 5)
        (initState [])).2.checks = [1, 2, 3] ∧
    (download_playlist dlBothFail now
        (some (c6playlist t1 t2 t3 t4 t5 t6 t7 t8 t9 t10
          u1 u2 u3 u4 u5 u6 u7 u8 u9 u10)) 3 (some 5)
        (initState [])).2.outIdx = [1, 2, 3] ∧
    (download_playlist dlBothFail now
        (some (c6playlist t1 t2 t3 t4 t5 t6 t7 t8 t9 t10
          u1 u2 u3 u4 u5 u6 u7 u8 u9 u10)) 3 (some 5)
        (initState [])).2.total_count = 3 ∧
    (download_playlist dlBothFail now
        (some (c6playlist t1 t2 t3 t4 t5 t6 t7 t8 t9 t10
          u1 u2 u3 u4 u5 u6 u7 u8 u9 u10)) 3 (some 5)
        (initState [])).1 = true :=
  ⟨rfl, rfl, rfl, rfl⟩

/-- Playlist for the C1 counterexample: the first entry is non-empty but
has no `webpage_url` key; the second entry is fully resolvable. -/
def c1playlist : PlaylistInfo :=
  ⟨"PL", [some (EntryData.mk (some "A") none),
          some (EntryData.mk (some "B") (some "u2"))]⟩

/-- C1 counterexample: on a playlist whose first entry is non-empty but
lacks a source URL (no `webpage_url` key), `download_playlist` does not
record a FailureRecord for it and does not continue to the next entry:
the `KeyError` of `entry['webpage_url']` escapes the loop into the
run-level handler, the run returns false, the failure ledger stays empty
and entry 2 is never processed (only ordinal 1 was ever checked). -/
theorem C1_counterexample :
    (download_playlist dlOkW "t" (some c1playlist) 1 none (initState [])).1 = false ∧
    (download_playlist dlOkW "t" (some c1playlist) 1 none
      (initState [])).2.failed_downloads = [] ∧
    (download_playlist dlOkW "t" (some c1playlist) 1 none
      (initState [])).2.checks = [1] :=
  ⟨rfl, rfl, rfl⟩

/-- C1 amended: an entry whose `webpage_url` key is present but whose URL
cannot be downloaded in either format (primary and secondary attempts
both fail) gets a FailureRecord with the combined explanatory message
appended to the ledger, and the loop continues with the remaining
entries; an entry missing the key instead raises `KeyError`, which
aborts the loop into the run-level handler (see `C1_counterexample`). -/
theorem C1_amended_failed_entry_recorded (dl : Dl) (now : String) (i : Nat)
    (rest : List (Option EntryData)) (st : RunState) (e : EntryData)
    (url ew em : String)
    (hu : e.webpage_url = some url)
    (hw : dl url Fmt.wav = some ew) (hm : dl url Fmt.mp3 = some em)
    (hex : (check_file_exists st.fs i (e.title.getD "未知標題")).1 = false) :
    download_playlist_loop dl now i (some e :: rest) st =
      download_playlist_loop dl now (i + 1) rest
        { st with
          checks := st.checks ++ [i]
          outIdx := st.outIdx ++ [i]
          codecCalls := st.codecCalls ++ [(url, Fmt.wav), (url, Fmt.mp3)]
          format_attempts := st.format_attempts ++
            [AttemptRecord.mk i (e.title.getD "未知標題") Fmt.wav ew now,
             AttemptRecord.mk i (e.title.getD "未知標題") Fmt.mp3 em now]
          failed_downloads := st.failed_downloads ++
            [FailureRecord.mk i (e.title.getD "未知標題") url
              ("WAV: " ++ ew ++ "; MP3: " ++ em) now] } := by
  cases st
  simp only [download_playlist_loop, hex, Bool.false_eq_true, if_false, hu,
    download_with_format_fallback, hw, hm]
  simp [List.append_assoc]

/-- Witness for C1: a concrete two-entry playlist whose first entry has a
present but undownloadable URL; the FailureRecord is appended and the
loop proceeds to ordinal 2. -/
theorem C1_witness :
    download_playlist_loop dlBothFail "t" 1
        [some (EntryData.mk (some "T") (some "u")),
         some (EntryData.mk (some "B") (some "v"))] (initState []) =
      download_playlist_loop dlBothFail "t" 2
        [some (EntryData.mk (some "B") (some "v"))]
        { initState [] with
          checks := [1]
          outIdx := [1]
          codecCalls := [("u", Fmt.wav), ("u", Fmt.mp3)]
          format_attempts := [AttemptRecord.mk 1 "T" Fmt.wav "e1" "t",
            AttemptRecord.mk 1 "T" Fmt.mp3 "e2" "t"]
          failed_downloads := [FailureRecord.mk 1 "T" "u"
            ("WAV: " ++ "e1" ++ "; MP3: " ++ "e2") "t"] } :=
  C1_amended_failed_entry_recorded dlBothFail "t" 1 _ (initState [])
    (EntryData.mk (some "T") (some "u")) "u" "e1" "e2" rfl rfl rfl rfl

/-- Playlist for the C2 counterexample: metadata resolves, with a single
non-empty entry lacking `webpage_url`. -/
def c2playlist : PlaylistInfo :=
  ⟨"PL2", [some (EntryData.mk (some "X") none)]⟩

/-- C2 counterexample: a run whose enumeration succeeds (metadata with one
non-empty entry) but which still returns false: the entry has no
`webpage_url`, so the loop aborts via KeyError and the run-level handler
returns false — refuting "returns true whenever enumeration succeeds". -/
theorem C2_counterexample :
    (download_playlist dlOkW "t" (some c2playlist) 1 none (initState [])).1 = false :=
  rfl

theorem loop_ok_of_urls (dl : Dl) (now : String) :
    ∀ (es : List (Option EntryData)) (i : Nat) (st : RunState),
      (es.all fun oe => oe.all fun d => d.webpage_url.isSome) = true →
      (download_playlist_loop dl now i es st).2 = true := by
  intro es
  induction es with
  | nil => intro i st _; rfl
  | cons oe rest ih =>
    intro i st h
    rw [List.all_cons, Bool.and_eq_true] at h
    cases oe with
    | none => exact ih (i + 1) st h.2
    | some e =>
      have hu : e.webpage_url.isSome = true := h.1
      rw [Option.isSome_iff_exists] at hu
      obtain ⟨url, hurl⟩ := hu
      simp only [download_playlist_loop]
      by_cases hc : (check_file_exists st.fs i (e.title.getD "未知標題")).1 = true
      · simp only [hc, if_true]
        exact ih (i + 1) _ h.2
      · simp only [Bool.not_eq_true] at hc
        simp only [hc, Bool.false_eq_true, if_false, hurl]
        by_cases hr : (download_with_format_fallback dl now url
            (e.title.getD "未知標題") i
            { st with
              checks := st.checks ++ [i]
              outIdx := st.outIdx ++ [i] }).1.1 = true
        · simp only [hr, if_true]
          exact ih (i + 1) _ h.2
        · simp only [Bool.not_eq_true] at hr
          simp only [hr, Bool.false_eq_true, if_false]
          exact ih (i + 1) _ h.2

/-- C2 amended: `download_playlist` returns false when playlist
enumeration fails; when enumeration succeeds it returns true provided
every non-empty entry of the sliced window carries a `webpage_url` key —
no matter how many per-entry download attempts fail.  A processed entry
lacking the key makes the run return false despite successful
enumeration (see `C2_counterexample`). -/
theorem C2_amended_returns (dl : Dl) (now : String) (start_index : Nat)
    (end_index : Option Nat) (st : RunState) :
    (download_playlist dl now none start_index end_index st).1 = false ∧
    (∀ pi : PlaylistInfo,
      ((sliceEntries pi.entries start_index end_index).1.all
        fun oe => oe.all fun d => d.webpage_url.isSome) = true →
      (download_playlist dl now (some pi) start_index end_index st).1 = true) := by
  constructor
  · rfl
  · intro pi h
    exact loop_ok_of_urls dl now _ 1 _ h

/-- Playlist for the C2 witness: one downloadable-keyed entry (whose
downloads will fail) and one removed entry. -/
def c2bplaylist : PlaylistInfo :=
  ⟨"PL", [some (EntryData.mk (some "T") (some "u")), none]⟩

/-- Witness for C2: with enumeration failing the run returns false; with
enumeration succeeding and both download attempts of the only entry
failing, the run still returns true. -/
theorem C2_witness :
    (download_playlist dlOkW "t" none 1 none (initState [])).1 = false ∧
    (download_playlist dlBothFail "t" (some c2bplaylist) 1 none
      (initState [])).1 = true :=
  ⟨(C2_amended_returns dlOkW "t" 1 none (initState [])).1,
   (C2_amended_returns dlBothFail "t" 1 none (initState [])).2 c2bplaylist (by rfl)⟩

theorem str_append_assoc (a b c : String) : (a ++ b) ++ c = a ++ (b ++ c) := by
  cases a with
  | mk la =>
    cases b with
    | mk lb =>
      cases c with
      | mk lc =>
        show String.mk ((la ++ lb) ++ lc) = String.mk (la ++ (lb ++ lc))
        rw [List.append_assoc]

theorem fallback_fs_mono (dl : Dl) (now url title : String) (i : Nat)
    (st : RunState) (x : String) (hx : x ∈ st.fs) :
    x ∈ (download_with_format_fallback dl now url title i st).2.fs := by
  rw [download_with_format_fallback]
  cases dl url Fmt.wav with
  | none => simpa using Or.inl hx
  | some ew =>
    cases dl url Fmt.mp3 with
    | none => simpa using Or.inl hx
    | some em => simpa using hx

theorem fallback_failed_eq (dl : Dl) (now url title : String) (i : Nat)
    (st : RunState) :
    (download_with_format_fallback dl now url title i st).2.failed_downloads =
      st.failed_downloads := by
  rw [download_with_format_fallback]
  cases dl url Fmt.wav with
  | none => rfl
  | some ew =>
    cases dl url Fmt.mp3 with
    | none => rfl
    | some em => rfl

theorem fallback_success_file (dl : Dl) (now url title : String) (i : Nat)
    (st : RunState)
    (h : (download_with_format_fallback dl now url title i st).1.1 = true) :
    outName i title "wav" ∈ (download_with_format_fallback dl now url title i st).2.fs ∨
    outName i title "mp3" ∈ (download_with_format_fallback dl now url title i st).2.fs := by
  rw [download_with_format_fallback] at h ⊢
  cases hW : dl url Fmt.wav with
  | none =>
    simp only [hW] at h ⊢
    exact Or.inl (by simp)
  | some ew =>
    cases hM : dl url Fmt.mp3 with
    | none =>
      simp only [hW, hM] at h ⊢
      exact Or.inr (by simp)
    | some em =>
      simp only [hW, hM] at h
      exact absurd h (by simp)

theorem loop_fs_mono (dl : Dl) (now : String) :
    ∀ (es : List (Option EntryData)) (i : Nat) (st : RunState) (x : String),
      x ∈ st.fs → x ∈ (download_playlist_loop dl now i es st).1.fs := by
  intro es
  induction es with
  | nil => intro i st x hx; exact hx
  | cons oe rest ih =>
    intro i st x hx
    cases oe with
    | none => exact ih (i + 1) st x hx
    | some e =>
      simp only [download_playlist_loop]
      by_cases hc : (check_file_exists st.fs i (e.title.getD "未知標題")).1 = true
      · simp only [hc, if_true]
        exact ih (i + 1) _ x hx
      · simp only [Bool.not_eq_true] at hc
        simp only [hc, Bool.false_eq_true, if_false]
        cases hurl : e.webpage_url with
        | none => exact hx
        | some url =>
          simp only []
          by_cases hr : (download_with_format_fallback dl now url
              (e.title.getD "未知標題") i
              { st with
                checks := st.checks ++ [i]
                outIdx := st.outIdx ++ [i] }).1.1 = true
          · simp only [hr, if_true]
            exact ih (i + 1) _ x (fallback_fs_mono dl now url _ i _ x hx)
          · simp only [Bool.not_eq_true] at hr
            simp only [hr, Bool.false_eq_true, if_false]
            exact ih (i + 1) _ x (fallback_fs_mono dl now url _ i _ x hx)

theorem loop_failed_len (dl : Dl) (now : String) :
    ∀ (es : List (Option EntryData)) (i : Nat) (st : RunState),
      st.failed_downloads.length ≤
        (download_playlist_loop dl now i es st).1.failed_downloads.length := by
  intro es
  induction es with
  | nil => intro i st; exact Nat.le_refl _
  | cons oe rest ih =>
    intro i st
    cases oe with
    | none => exact ih (i + 1) st
    | some e =>
      simp only [download_playlist_loop]
      by_cases hc : (check_file_exists st.fs i (e.title.getD "未知標題")).1 = true
      · simp only [hc, if_true]
        have h2 := ih (i + 1)
          { st with
            success_count := st.success_count + 1
            checks := st.checks ++ [i] }
        exact h2
      · simp only [Bool.not_eq_true] at hc
        simp only [hc, Bool.false_eq_true, if_false]
        cases hurl : e.webpage_url with
        | none => exact Nat.le_refl _
        | some url =>
          simp only []
          by_cases hr : (download_with_format_fallback dl now url
              (e.title.getD "未知標題") i
              { st with
                checks := st.checks ++ [i]
                outIdx := st.outIdx ++ [i] }).1.1 = true
          · simp only [hr, if_true]
            have h2 := ih (i + 1)
              { (download_with_format_fallback dl now url
                  (e.title.getD "未知標題") i
                  { st with
                    checks := st.checks ++ [i]
                    outIdx := st.outIdx ++ [i] }).2 with
                success_count := (download_with_format_fallback dl now url
                  (e.title.getD "未知標題") i
                  { st with
                    checks := st.checks ++ [i]
                    outIdx := st.outIdx ++ [i] }).2.success_count + 1 }
            rw [fallback_failed_eq] at h2
            exact h2
          · simp only [Bool.not_eq_true] at hr
            simp only [hr, Bool.false_eq_true, if_false]
            refine Nat.le_trans ?_ (ih (i + 1) _)
            simp [fallback_failed_eq]

theorem check_fst (fs : List String) (i : Nat) (t : String) :
    (check_file_exists fs i t).1 =
      ((exact_match fs i t).isSome || (fuzzy_match fs i t).isSome) := by
  rw [check_file_exists]
  cases exact_match fs i t with
  | some pf => cases pf with | mk p f => rfl
  | none =>
    cases fuzzy_match fs i t with
    | some pf => cases pf with | mk p f => rfl
    | none => rfl

theorem firstHit_isSome_iff {α β : Type} (f : α → Option β) (l : List α) :
    (firstHit f l).isSome = true ↔ ∃ a, a ∈ l ∧ (f a).isSome = true := by
  induction l with
  | nil => simp [firstHit]
  | cons a t ih =>
    have h1 : firstHit f (a :: t) =
        match f a with
        | some b => some b
        | none => firstHit f t := rfl
    rw [h1]
    cases hfa : f a with
    | some b =>
      constructor
      · intro _
        exact ⟨a, by simp, by simp [hfa]⟩
      · intro _
        rfl
    | none =>
      rw [ih]
      constructor
      · rintro ⟨x, hx, hfx⟩
        exact ⟨x, List.mem_cons_of_mem a hx, hfx⟩
      · rintro ⟨x, hx, hfx⟩
        rcases List.mem_cons.1 hx with rfl | hx2
        · rw [hfa] at hfx
          exact absurd hfx (by simp)
        · exact ⟨x, hx2, hfx⟩

theorem opt_ite_isSome {β : Type} (c : Prop) [Decidable c] (b : β) :
    (if c then some b else none).isSome = true ↔ c := by
  by_cases h : c
  · simp [h]
  · simp [h]

theorem exact_match_isSome_iff (fs : List String) (i : Nat) (t : String) :
    (exact_match fs i t).isSome = true ↔
      ∃ pat, pat ∈ [pad2 i ++ " - " ++ sanitize_filename t,
          pad2 i ++ " - " ++ t] ∧
        ∃ ext, ext ∈ possible_formats ∧ (pat ++ ext) ∈ fs := by
  simp only [exact_match]
  rw [firstHit_isSome_iff]
  constructor
  · rintro ⟨pat, hp, hsome⟩
    rw [firstHit_isSome_iff] at hsome
    obtain ⟨ext, he, hs2⟩ := hsome
    rw [opt_ite_isSome] at hs2
    exact ⟨pat, hp, ext, he, hs2⟩
  · rintro ⟨pat, hp, ext, he, hm⟩
    refine ⟨pat, hp, ?_⟩
    rw [firstHit_isSome_iff]
    refine ⟨ext, he, ?_⟩
    rw [opt_ite_isSome]
    exact hm

theorem fuzzy_match_isSome_iff (fs : List String) (i : Nat) (t : String) :
    (fuzzy_match fs i t).isSome = true ↔
      ∃ name, name ∈ fs ∧
        ((pad2 i ++ " -").data.isPrefixOf name.data = true ∧
          fuzzy_accept (significant_keywords t) name = true) := by
  simp only [fuzzy_match]
  rw [firstHit_isSome_iff]
  constructor
  · rintro ⟨name, hn, hsome⟩
    by_cases h1 : (pad2 i ++ " -").data.isPrefixOf name.data = true
    · rw [if_pos h1] at hsome
      by_cases h2 : fuzzy_accept (significant_keywords t) name = true
      · exact ⟨name, hn, h1, h2⟩
      · rw [if_neg h2] at hsome
        exact absurd hsome (by simp)
    · rw [if_neg h1] at hsome
      exact absurd hsome (by simp)
  · rintro ⟨name, hn, h1, h2⟩
    refine ⟨name, hn, ?_⟩
    rw [if_pos h1, if_pos h2]
    rfl

theorem check_mono (fs fs2 : List String) (i : Nat) (t : String)
    (hsub : ∀ x ∈ fs, x ∈ fs2)
    (h : (check_file_exists fs i t).1 = true) :
    (check_file_exists fs2 i t).1 = true := by
  rw [check_fst, Bool.or_eq_true] at h ⊢
  rcases h with h | h
  · left
    rw [exact_match_isSome_iff] at h ⊢
    obtain ⟨pat, hp, ext, he, hm⟩ := h
    exact ⟨pat, hp, ext, he, hsub _ hm⟩
  · right
    rw [fuzzy_match_isSome_iff] at h ⊢
    obtain ⟨name, hn, hpred⟩ := h
    exact ⟨name, hsub _ hn, hpred⟩

theorem check_of_outName (fs : List String) (i : Nat) (t : String)
    (ext : String) (hext : ext = "wav" ∨ ext = "mp3")
    (hmem : outName i t ext ∈ fs) :
    (check_file_exists fs i t).1 = true := by
  rw [check_fst, Bool.or_eq_true]
  left
  rw [exact_match_isSome_iff]
  refine ⟨pad2 i ++ " - " ++ t, by simp, "." ++ ext, ?_, ?_⟩
  · rcases hext with rfl | rfl
    · simp [possible_formats]
    · simp [possible_formats]
  · rw [outName] at hmem
    rw [← str_append_assoc]
    exact hmem

theorem loop_second_run (dlA dlB : Dl) (nowA nowB : String) :
    ∀ (es : List (Option EntryData)) (i : Nat) (stA stB : RunState),
      (download_playlist_loop dlA nowA i es stA).2 = true →
      (download_playlist_loop dlA nowA i es stA).1.failed_downloads =
        stA.failed_downloads →
      (∀ x ∈ (download_playlist_loop dlA nowA i es stA).1.fs, x ∈ stB.fs) →
      (download_playlist_loop dlB nowB i es stB).1.codecCalls = stB.codecCalls ∧
      (download_playlist_loop dlB nowB i es stB).1.fs = stB.fs ∧
      (download_playlist_loop dlB nowB i es stB).2 = true := by
  intro es
  induction es with
  | nil =>
    intro i stA stB _ _ _
    exact ⟨rfl, rfl, rfl⟩
  | cons oe rest ih =>
    intro i stA stB hOk hFail hBfs
    cases oe with
    | none => exact ih (i + 1) stA stB hOk hFail hBfs
    | some e =>
      simp only [download_playlist_loop] at hOk hFail hBfs ⊢
      by_cases hcA : (check_file_exists stA.fs i (e.title.getD "未知標題")).1 = true
      · simp only [hcA, if_true] at hOk hFail hBfs
        have hsub : ∀ x ∈ stA.fs, x ∈ stB.fs := by
          intro x hx
          exact hBfs x (loop_fs_mono dlA nowA rest (i + 1)
            { stA with
              checks := stA.checks ++ [i]
              success_count := stA.success_count + 1 } x hx)
        have hcB : (check_file_exists stB.fs i (e.title.getD "未知標題")).1 = true :=
          check_mono stA.fs stB.fs i (e.title.getD "未知標題") hsub hcA
        simp only [hcB, if_true]
        exact ih (i + 1)
          { stA with
            checks := stA.checks ++ [i]
            success_count := stA.success_count + 1 }
          { stB with
            checks := stB.checks ++ [i]
            success_count := stB.success_count + 1 }
          hOk hFail hBfs
      · simp only [Bool.not_eq_true] at hcA
        simp only [hcA, Bool.false_eq_true, if_false] at hOk hFail hBfs
        cases hurl : e.webpage_url with
        | none =>
          simp only [hurl] at hOk
          simp at hOk
        | some url =>
          simp only [hurl] at hOk hFail hBfs
          by_cases hrA : (download_with_format_fallback dlA nowA url
              (e.title.getD "未知標題") i
              { stA with
                checks := stA.checks ++ [i]
                outIdx := stA.outIdx ++ [i] }).1.1 = true
          · simp only [hrA, if_true] at hOk hFail hBfs
            have hfile := fallback_success_file dlA nowA url
              (e.title.getD "未知標題") i
              { stA with
                checks := stA.checks ++ [i]
                outIdx := stA.outIdx ++ [i] } hrA
            have hcB : (check_file_exists stB.fs i (e.title.getD "未知標題")).1 = true := by
              rcases hfile with hf | hf
              · refine check_of_outName stB.fs i _ "wav" (Or.inl rfl) ?_
                refine hBfs _ ?_
                exact loop_fs_mono dlA nowA rest (i + 1)
                  { (download_with_format_fallback dlA nowA url
                      (e.title.getD "未知標題") i
                      { stA with
                        checks := stA.checks ++ [i]
                        outIdx := stA.outIdx ++ [i] }).2 with
                    success_count := (download_with_format_fallback dlA nowA url
                      (e.title.getD "未知標題") i
                      { stA with
                        checks := stA.checks ++ [i]
                        outIdx := stA.outIdx ++ [i] }).2.success_count + 1 } _ hf
              · refine check_of_outName stB.fs i _ "mp3" (Or.inr rfl) ?_
                refine hBfs _ ?_
                exact loop_fs_mono dlA nowA rest (i + 1)
                  { (download_with_format_fallback dlA nowA url
                      (e.title.getD "未知標題") i
                      { stA with
                        checks := stA.checks ++ [i]
                        outIdx := stA.outIdx ++ [i] }).2 with
                    success_count := (download_with_format_fallback dlA nowA url
                      (e.title.getD "未知標題") i
                      { stA with
                        checks := stA.checks ++ [i]
                        outIdx := stA.outIdx ++ [i] }).2.success_count + 1 } _ hf
            simp only [hcB, if_true]
            have hfe : (download_with_format_fallback dlA nowA url
                (e.title.getD "未知標題") i
                { stA with
                  checks := stA.checks ++ [i]
                  outIdx := stA.outIdx ++ [i] }).2.failed_downloads =
                stA.failed_downloads := by
              rw [fallback_failed_eq]
            exact ih (i + 1)
              { (download_with_format_fallback dlA nowA url
                  (e.title.getD "未知標題") i
                  { stA with
                    checks := stA.checks ++ [i]
                    outIdx := stA.outIdx ++ [i] }).2 with
                success_count := (download_with_format_fallback dlA nowA url
                  (e.title.getD "未知標題") i
                  { stA with
                    checks := stA.checks ++ [i]
                    outIdx := stA.outIdx ++ [i] }).2.success_count + 1 }
              { stB with
                checks := stB.checks ++ [i]
                success_count := stB.success_count + 1 }
              hOk (hFail.trans hfe.symm) hBfs
          · simp only [Bool.not_eq_true] at hrA
            simp only [hrA, Bool.false_eq_true, if_false] at hFail
            exfalso
            have h2 := loop_failed_len dlA nowA rest (i + 1)
              { (download_with_format_fallback dlA nowA url
                  (e.title.getD "未知標題") i
                  { stA with
                    checks := stA.checks ++ [i]
                    outIdx := stA.outIdx ++ [i] }).2 with
                failed_downloads := (download_with_format_fallback dlA nowA url
                  (e.title.getD "未知標題") i
                  { stA with
                    checks := stA.checks ++ [i]
                    outIdx := stA.outIdx ++ [i] }).2.failed_downloads ++
                  [FailureRecord.mk i (e.title.getD "未知標題")
                    ((some url).getD "")
                    ((download_with_format_fallback dlA nowA url
                      (e.title.getD "未知標題") i
                      { stA with
                        checks := stA.checks ++ [i]
                        outIdx := stA.outIdx ++ [i] }).1.2.2.getD "") nowA] }
            rw [hFail] at h2
            simp only [fallback_failed_eq, List.length_append, List.length_cons,
              List.length_nil] at h2
            omega

/-- Playlist for the C4 claims: a single downloadable entry. -/
def c4playlist : PlaylistInfo :=
  ⟨"PL4", [some (EntryData.mk (some "T") (some "u"))]⟩

/-- C4 counterexample: when the only entry fails both codec attempts in
the first run (so nothing is materialised, though the filesystem is
unchanged between runs), the second identical run re-attempts it: it
performs two codec invocations, not zero. -/
theorem C4_counterexample :
    (download_playlist dlBothFail "t2" (some c4playlist) 1 none
      (download_playlist dlBothFail "t1" (some c4playlist) 1 none
        (initState [])).2).2.codecCalls = [("u", Fmt.wav), ("u", Fmt.mp3)] ∧
    (download_playlist dlBothFail "t2" (some c4playlist) 1 none
      (download_playlist dlBothFail "t1" (some c4playlist) 1 none
        (initState [])).2).2.codecCalls ≠ [] :=
  ⟨rfl, fun h => List.noConfusion h⟩

/-- C4 amended: if the first run completed (returned true) and recorded no
failures (its failure ledger is unchanged), then re-running the same
request against the resulting state — same directory, no filesystem
changes in between — performs zero codec invocations: every entry the
first run processed is resolved as already existing by
`check_file_exists` and skipped.  Entries that failed in the first run
are re-attempted instead (see `C4_counterexample`). -/
theorem C4_second_run_zero_codec_calls (dl dl2 : Dl) (now now2 : String)
    (pi : PlaylistInfo) (start_index : Nat) (end_index : Option Nat)
    (st0 : RunState)
    (h1 : (download_playlist dl now (some pi) start_index end_index st0).1 = true)
    (h2 : (download_playlist dl now (some pi) start_index end_index
      st0).2.failed_downloads = st0.failed_downloads) :
    (download_playlist dl2 now2 (some pi) start_index end_index
      (download_playlist dl now (some pi) start_index end_index
        st0).2).2.codecCalls = [] := by
  simp only [download_playlist] at h1 h2 ⊢
  have hmain := loop_second_run dl dl2 now now2
    (sliceEntries pi.entries start_index end_index).1 1
    { st0 with
      success_count := 0
      total_count := (sliceEntries pi.entries start_index end_index).2
      codecCalls := []
      checks := []
      outIdx := [] }
    { (download_playlist_loop dl now 1
        (sliceEntries pi.entries start_index end_index).1
        { st0 with
          success_count := 0
          total_count := (sliceEntries pi.entries start_index end_index).2
          codecCalls := []
          checks := []
          outIdx := [] }).1 with
      success_count := 0
      total_count := (sliceEntries pi.entries start_index end_index).2
      codecCalls := []
      checks := []
      outIdx := [] }
    h1 h2 (fun x hx => hx)
  exact hmain.1

/-- Witness for C4: the first run downloads the single entry via the MP3
fallback (WAV fails, MP3 succeeds, no FailureRecord recorded); the
second run then performs zero codec invocations. -/
theorem C4_witness :
    (download_playlist dlWavFail "t1" (some c4playlist) 1 none
      (initState [])).1 = true ∧
    (download_playlist dlWavFail "t1" (some c4playlist) 1 none
      (initState [])).2.failed_downloads = (initState []).failed_downloads ∧
    (download_playlist dlOkW "t2" (some c4playlist) 1 none
      (download_playlist dlWavFail "t1" (some c4playlist) 1 none
        (initState [])).2).2.codecCalls = [] :=
  ⟨rfl, rfl,
    C4_second_run_zero_codec_calls dlWavFail dlOkW "t1" "t2" c4playlist 1 none
      (initState []) rfl rfl⟩

end YtDl
